import Mathlib

/-!
# Verification of the gym-attendance subsystem

Shallow embedding of the attendance handlers (`createGymAttendance`,
`createBulkGymAttendance`, `getGymAttendanceForMonth`,
`getUserAttendanceHistory`, `deleteGymAttendance`) together with the zod
input validation that runs in front of them, and proofs of the spec's
claims about them.

The database is modelled as an explicit state (`DB`): a set of user ids, a
list of attendance records and the next serial id.  Date values stored in
the `date` column are modelled as calendar triples (`Dte`); the column's
ordering (used by the `gte`/`lte` range query) is the calendar order,
realised here through the numeric key `Dte.key`, which agrees with
year/month/day lexicographic order for all dates a SQL `date` column can
hold (month < 32, day < 32).  JavaScript `number` arithmetic on day counts
is embedded as exact arithmetic (`Int`/`ℚ`): every quantity involved is a
small integer, far below any double-precision rounding.
-/

/-- A calendar date (year, month, day) - the value held by the
`attendance_date` column. -/
structure Dte where
  y : Nat
  m : Nat
  d : Nat
deriving DecidableEq, Repr

/-- Numeric key realising the calendar order on dates: for dates with
month < 32 and day < 32 (every date a `date` column can hold),
`key`-order is exactly (year, month, day) lexicographic order. -/
def Dte.key (a : Dte) : Nat := a.y * 1024 + a.m * 32 + a.d

/-- Leap-year test as ECMAScript `Date` performs it (the source obtains all
day counts from `new Date(...)`). -/
def isLeap (y : Nat) : Bool :=
  if y % 4 ≠ 0 then false
  else if y % 100 ≠ 0 then true
  else if y % 400 ≠ 0 then false
  else true

/-- Number of days in month `m` of year `y`, as the source computes it via
`new Date(year, month, 0).getDate()`. -/
def daysInMonth (y m : Nat) : Nat :=
  match m with
  | 2 => if isLeap y then 29 else 28
  | 4 => 30
  | 6 => 30
  | 9 => 30
  | 11 => 30
  | _ => 31

/-- Days in the months of year `y` strictly before month `m`. -/
def daysBeforeMonth (y m : Nat) : Nat :=
  ((List.range (m - 1)).map (fun k => daysInMonth y (k + 1))).sum

/-- Gregorian leap years in years `1..y`. -/
def leapsUpTo (y : Nat) : Nat := y / 4 - y / 100 + y / 400

/-- Day number of the date (y, m, d) counting 0001-01-01 as day 1
(proleptic Gregorian, as ECMAScript's calendar). -/
def ordinal (y m d : Nat) : Nat :=
  365 * (y - 1) + leapsUpTo (y - 1) + daysBeforeMonth y m + d

/-- Day of week of (y, m, d) with JavaScript `Date.prototype.getDay`
numbering: 0 = Sunday, 1 = Monday, ..., 6 = Saturday. -/
def jsGetDay (y m d : Nat) : Nat := ordinal y m d % 7

/-- The two decimal digit characters of `n` (month and day fields of an
ISO `YYYY-MM-DD` string; both are below 100). -/
def twoDigitChars (n : Nat) : List Char :=
  [Nat.digitChar (n / 10 % 10), Nat.digitChar (n % 10)]

/-- The `YYYY-MM-` character prefix of an ISO date string (years in the
validated range 2000..3000 print with four digits). -/
def ymChars (y m : Nat) : List Char :=
  [Nat.digitChar (y / 1000 % 10), Nat.digitChar (y / 100 % 10),
   Nat.digitChar (y / 10 % 10), Nat.digitChar (y % 10), '-'] ++
    twoDigitChars m ++ ['-']

/-- ISO `YYYY-MM-DD` rendering of a date, as produced by
`date.toISOString().split('T')[0]` on a UTC-midnight date value. -/
def toISO (y m d : Nat) : String := ⟨ymChars y m ++ twoDigitChars d⟩

/-- ISO rendering of a stored date value. -/
def Dte.iso (a : Dte) : String := toISO a.y a.m a.d

/-- A persisted gym-attendance row (`gym_attendance` table): serial id,
user id, attendance date. -/
structure AttRec where
  id : Nat
  user_id : Nat
  attendance_date : Dte
deriving DecidableEq, Repr

/-- The store state: existing user ids (`users` table), attendance rows,
and the next value of the serial id sequence. -/
structure DB where
  users : List Nat
  records : List AttRec
  nextId : Nat
deriving Repr

/-- An incoming date string, abstracted by what `Date.parse` does with it:
a parseable string denotes a calendar date, an unparseable one does not. -/
inductive DateStrIn where
  | valid (d : Dte)
  | invalid (s : String)
deriving DecidableEq, Repr

/-- `Date.parse` on an incoming date string (the zod refinement accepts
exactly the strings on which this is `some`). -/
def parseDate : DateStrIn → Option Dte
  | .valid d => some d
  | .invalid _ => none

/-- Errors thrown across the operation: the user-not-found and
record-not-found errors thrown by the handlers, the zod date-validation
failure raised before a handler runs, and the error the insert builder
throws when asked to insert an empty values array (a zero-tuple INSERT is
rejected before reaching the store), which the handler rethrows. -/
inductive Err where
  | notFoundUser (id : Nat)
  | notFoundRecord (id : Nat)
  | invalidInput (s : DateStrIn)
  | emptyInsert
deriving DecidableEq, Repr


/-- Validate a whole batch of date strings, as the zod array schema does
before the bulk handler is invoked: succeeds with the parsed dates when
every element parses, otherwise reports an unparseable element. -/
def parseAll : List DateStrIn → Except DateStrIn (List Dte)
  | [] => .ok []
  | s :: rest =>
    match parseDate s with
    | none => .error s
    | some d =>
      match parseAll rest with
      | .error e => .error e
      | .ok ds => .ok (d :: ds)

/-- Insert one row per date for a user, assigning consecutive serial ids,
as the single bulk `insert ... values(...)` with `returning` does. -/
def insertMany (uid : Nat) : List Dte → DB → List AttRec × DB
  | [], db => ([], db)
  | d :: rest, db =>
    let r : AttRec := ⟨db.nextId, uid, d⟩
    let (rs, db') := insertMany uid rest ⟨db.users, db.records ++ [r], db.nextId + 1⟩
    (r :: rs, db')

/-- Handler `createGymAttendance` behind `createGymAttendanceInputSchema`:
the zod refinement rejects an unparseable date string, then the handler
checks the user exists and inserts one row.  The returned `DB` is the
store after the call (unchanged on error). -/
def createGymAttendance (db : DB) (uid : Nat) (dateStr : DateStrIn) :
    Except Err AttRec × DB :=
  match parseDate dateStr with
  | none => (.error (.invalidInput dateStr), db)
  | some d =>
    if uid ∈ db.users then
      let r : AttRec := ⟨db.nextId, uid, d⟩
      (.ok r, ⟨db.users, db.records ++ [r], db.nextId + 1⟩)
    else (.error (.notFoundUser uid), db)

/-- Handler `createBulkGymAttendance` behind
`createBulkGymAttendanceInputSchema`: the zod array refinement validates
every date string before the handler runs; the handler then checks the
user exists and bulk-inserts one row per date, in input order.  On an
empty batch (which the schema admits) the insert builder throws on the
empty values array before anything reaches the store, so the call fails
with the store unchanged. -/
def createBulkGymAttendance (db : DB) (uid : Nat) (dates : List DateStrIn) :
    Except Err (List AttRec) × DB :=
  match parseAll dates with
  | .error s => (.error (.invalidInput s), db)
  | .ok ds =>
    if uid ∈ db.users then
      if ds.isEmpty then (.error .emptyInsert, db)
      else
        let (rs, db') := insertMany uid ds db
        (.ok rs, db')
    else (.error (.notFoundUser uid), db)

/-- JavaScript `Math.round` on the exact value of its argument:
round half toward positive infinity. -/
def jsRound (q : ℚ) : ℤ := ⌊q + 1 / 2⌋

/-- `Math.round((attended / working) * 100)` for `working > 0`, evaluated
exactly: the round-half-up of the rational `100 * attended / working`,
computed by integer division.  (The double-precision evaluation in the
source is exact at this scale; `roundPct_eq_jsRound` below relates this
to the rational rounding.) -/
def roundPct (attended working : Nat) : Nat :=
  (200 * attended + working) / (2 * working)

/-- Code-unit comparison of two character lists: lexicographic order on
the numeric character values, as JavaScript's default string comparison
performs it. -/
def listCharLe : List Char → List Char → Bool
  | [], _ => true
  | _ :: _, [] => false
  | a :: as, b :: bs =>
    if a.toNat < b.toNat then true
    else if b.toNat < a.toNat then false
    else listCharLe as bs

/-- JavaScript string comparison (used by the default
`Array.prototype.sort()`): lexicographic by code unit. -/
def strLe (a b : String) : Bool := listCharLe a.data b.data

/-- JavaScript's default `Array.prototype.sort()` on an array of ISO date
strings: ascending lexicographic string sort. -/
def sortStrings (l : List String) : List String :=
  List.insertionSort (fun a b : String => strLe a b = true) l

/-- The derived monthly summary (`MonthlyAttendanceSummary` in the schema).
Counts are exact integers; `missed_days` and `attendance_percentage` are
`Int` because the source computes them with (possibly negative)
subtraction before clamping. -/
structure MonthlyAttendanceSummary where
  year : Nat
  month : Nat
  total_days : Nat
  attended_days : Nat
  missed_days : Int
  attendance_percentage : Int
  attendance_dates : List String
  sundays : List String
deriving DecidableEq, Repr

/-- The rows fetched for the month: the user's records whose date lies in
the inclusive range [(y, m, 1), (y, m, daysInMonth y m)] - the
`findByUserAndRange` query with `gte`/`lte` bounds. -/
def monthRecords (db : DB) (uid y m : Nat) : List AttRec :=
  db.records.filter
    (fun r => decide (r.user_id = uid ∧
      (Dte.key ⟨y, m, 1⟩) ≤ r.attendance_date.key ∧
      r.attendance_date.key ≤ Dte.key ⟨y, m, daysInMonth y m⟩))

/-- The day numbers of the Sundays of the month: iterate days
`1..daysInMonth`, keep the days whose day-of-week is 0. -/
def sundayDays (y m : Nat) : List Nat :=
  (List.range' 1 (daysInMonth y m)).filter (fun d => jsGetDay y m d == 0)

/-- The month's Sundays rendered as ISO strings, in day order (the order
the source's loop pushes them). -/
def sundayStrs (y m : Nat) : List String := (sundayDays y m).map (toISO y m)

/-- The summary the handler assembles for an existing user: day counts,
Sunday list, working/missed-day arithmetic, rounded percentage, and the
two sorted string lists. -/
def computeSummary (db : DB) (uid y m : Nat) : MonthlyAttendanceSummary :=
  let n := daysInMonth y m
  let attendanceDates := (monthRecords db uid y m).map (fun r => r.attendance_date.iso)
  let sundays := sundayStrs y m
  let workingDays : Int := (n : Int) - sundays.length
  let attendedDays := attendanceDates.length
  let missedDays : Int := workingDays - attendedDays
  let attendancePercentage : Int :=
    if 0 < workingDays then (roundPct attendedDays workingDays.toNat : Int) else 0
  { year := y
    month := m
    total_days := n
    attended_days := attendedDays
    missed_days := max 0 missedDays
    attendance_percentage := attendancePercentage
    attendance_dates := sortStrings attendanceDates
    sundays := sortStrings sundays }

/-- Handler `getGymAttendanceForMonth`: check the user, then fetch the
month's rows and assemble the summary. -/
def getGymAttendanceForMonth (db : DB) (uid y m : Nat) :
    Except Err MonthlyAttendanceSummary :=
  if uid ∈ db.users then .ok (computeSummary db uid y m)
  else .error (.notFoundUser uid)

/-- Handler `getUserAttendanceHistory`: check the user, return the user's
rows ordered by `attendance_date` descending (most recent first). -/
def getUserAttendanceHistory (db : DB) (uid : Nat) : Except Err (List AttRec) :=
  if uid ∈ db.users then
    .ok (List.insertionSort
      (fun a b : AttRec => b.attendance_date.key ≤ a.attendance_date.key)
      (db.records.filter (fun r => r.user_id == uid)))
  else .error (.notFoundUser uid)

/-- The `{ success: boolean }` result of the delete handler. -/
structure DeleteResult where
  success : Bool
deriving DecidableEq, Repr

/-- Handler `deleteGymAttendance`: select the row by id; if none exists
throw record-not-found, otherwise delete the rows with that id and return
success. -/
def deleteGymAttendance (db : DB) (rid : Nat) : Except Err DeleteResult × DB :=
  if (db.records.filter (fun r => r.id == rid)).length = 0 then
    (.error (.notFoundRecord rid), db)
  else
    (.ok ⟨true⟩, ⟨db.users, db.records.filter (fun r => r.id != rid), db.nextId⟩)

/-! ## Spec-side definitions

The following definitions are written from the specification's wording,
independently of the handler translation above; the claim theorems relate
the two. -/

/-- The spec's Gregorian leap-year rule: 29-day February "when the year is
divisible by 4, except centuries not divisible by 400". -/
def isLeapGregorian (y : Nat) : Bool :=
  decide (y % 4 = 0 ∧ ¬(y % 100 = 0 ∧ ¬y % 400 = 0))

/-- Days per month of the standard Gregorian calendar, from the spec's
description. -/
def daysInMonthGregorian (y m : Nat) : Nat :=
  if m = 2 then (if isLeapGregorian y then 29 else 28)
  else if m = 4 ∨ m = 6 ∨ m = 9 ∨ m = 11 then 30
  else 31

/-- Calendar (year, month, day) lexicographic order on dates - the spec's
notion of one attendance date being no later than another. -/
def dteLexLe (a b : Dte) : Prop :=
  a.y < b.y ∨ (a.y = b.y ∧ (a.m < b.m ∨ (a.m = b.m ∧ a.d ≤ b.d)))

/-- Store used by the concrete scenarios below: one user (id 7) holding
the January-2024 attendance of the spec's first scenario
(2024-01-01, 02, 03, 08, 09, 10, 15, 16). -/
def janDB : DB :=
  ⟨[7],
   [⟨0, 7, ⟨2024, 1, 1⟩⟩, ⟨1, 7, ⟨2024, 1, 2⟩⟩, ⟨2, 7, ⟨2024, 1, 3⟩⟩,
    ⟨3, 7, ⟨2024, 1, 8⟩⟩, ⟨4, 7, ⟨2024, 1, 9⟩⟩, ⟨5, 7, ⟨2024, 1, 10⟩⟩,
    ⟨6, 7, ⟨2024, 1, 15⟩⟩, ⟨7, 7, ⟨2024, 1, 16⟩⟩],
   8⟩

/-! ## Order and sorting lemmas -/

/-- Code-unit comparison is total. -/
theorem listCharLe_total : ∀ a b : List Char,
    listCharLe a b = true ∨ listCharLe b a = true
  | [], _ => Or.inl rfl
  | _ :: _, [] => Or.inr rfl
  | a :: as, b :: bs => by
    by_cases hab : a.toNat < b.toNat
    · left; simp [listCharLe, hab]
    · by_cases hba : b.toNat < a.toNat
      · right; simp [listCharLe, hba]
      · have := listCharLe_total as bs
        simpa [listCharLe, hab, hba] using this

/-- Code-unit comparison is transitive. -/
theorem listCharLe_trans : ∀ a b c : List Char,
    listCharLe a b = true → listCharLe b c = true → listCharLe a c = true
  | [], _, _ => fun _ _ => rfl
  | _ :: _, [], _ => by simp [listCharLe]
  | _ :: _, _ :: _, [] => by simp [listCharLe]
  | a :: as, b :: bs, c :: cs => by
    intro h1 h2
    simp only [listCharLe] at h1 h2 ⊢
    split_ifs at h1 h2 ⊢ <;>
      first
        | rfl
        | (exfalso; omega)
        | exact listCharLe_trans as bs cs h1 h2

/-- `sortStrings` permutes its input. -/
theorem sortStrings_perm (l : List String) : List.Perm (sortStrings l) l :=
  List.perm_insertionSort _ l

/-- `sortStrings` sorts ascending w.r.t. code-unit string comparison. -/
theorem sortStrings_sorted (l : List String) :
    List.Sorted (fun a b => strLe a b = true) (sortStrings l) := by
  haveI : IsTotal String (fun a b => strLe a b = true) :=
    ⟨fun a b => listCharLe_total a.data b.data⟩
  haveI : IsTrans String (fun a b => strLe a b = true) :=
    ⟨fun a b c => listCharLe_trans a.data b.data c.data⟩
  exact List.sorted_insertionSort _ l

/-! ## Rounding lemmas -/

/-- The integer-division rounding used in the summary is exactly the
round-half-up of the rational `100 * attended / working`. -/
theorem roundPct_eq_jsRound (a w : Nat) (hw : 0 < w) :
    (roundPct a w : ℤ) = jsRound ((100 * a : ℚ) / w) := by
  have hw' : (w : ℚ) ≠ 0 := Nat.cast_ne_zero.mpr hw.ne'
  have key : (100 * a : ℚ) / w + 1 / 2 =
      ((200 * a + w : ℕ) : ℚ) / ((2 * w : ℕ) : ℚ) := by
    push_cast
    field_simp
    ring
  unfold roundPct jsRound
  rw [key, Rat.floor_natCast_div_natCast, Int.ofNat_div]
  push_cast
  rfl

/-- The rounded percentage is at most 100 when attendance does not exceed
the working days. -/
theorem roundPct_le_100 (a w : Nat) (hw : 0 < w) (h : a ≤ w) :
    roundPct a w ≤ 100 := by
  unfold roundPct
  calc (200 * a + w) / (2 * w) ≤ (2 * w * 100 + w) / (2 * w) :=
        Nat.div_le_div_right (by omega)
    _ = 100 := by
        rw [Nat.mul_add_div (by omega : 0 < 2 * w)]
        rw [Nat.div_eq_of_lt (by omega)]

/-! ## Calendar lemmas -/

/-- Every month of the year has between 28 and 31 days. -/
theorem daysInMonth_bounds (y m : Nat) :
    28 ≤ daysInMonth y m ∧ daysInMonth y m ≤ 31 := by
  unfold daysInMonth
  rcases m with _ | _ | _ | _ | _ | _ | _ | _ | _ | _ | _ | _ | m <;>
    first
      | (constructor <;> omega)
      | (cases isLeap y <;> simp)

/-- Count of the days in `1..n` falling on a fixed weekday: for any month
length `n` between 28 and 31 there are 4 or 5 of them. -/
theorem filter_mod7_length (b n : Nat) (hb : b < 7) (h1 : 28 ≤ n) (h2 : n ≤ 31) :
    4 ≤ ((List.range' 1 n).filter (fun d => (b + d) % 7 == 0)).length ∧
      ((List.range' 1 n).filter (fun d => (b + d) % 7 == 0)).length ≤ 5 := by
  interval_cases n <;> interval_cases b <;> decide

/-- The Sunday-day list of a month always has 4 or 5 entries. -/
theorem sundayDays_length (y m : Nat) :
    4 ≤ (sundayDays y m).length ∧ (sundayDays y m).length ≤ 5 := by
  have hb := daysInMonth_bounds y m
  unfold sundayDays
  have hpred : (fun d => jsGetDay y m d == 0) = (fun d =>
      ((365 * (y - 1) + leapsUpTo (y - 1) + daysBeforeMonth y m) % 7 + d) % 7 == 0) := by
    funext d
    have : jsGetDay y m d =
        ((365 * (y - 1) + leapsUpTo (y - 1) + daysBeforeMonth y m) % 7 + d) % 7 := by
      unfold jsGetDay ordinal
      omega
    rw [this]
  rw [hpred]
  exact filter_mod7_length _ _ (Nat.mod_lt _ (by omega)) hb.1 hb.2

/-- Characterisation of the Sunday-day list: exactly the days of the month
whose day-of-week is Sunday. -/
theorem mem_sundayDays {y m d : Nat} :
    d ∈ sundayDays y m ↔ 1 ≤ d ∧ d ≤ daysInMonth y m ∧ jsGetDay y m d = 0 := by
  unfold sundayDays
  simp only [List.mem_filter, List.mem_range'_1, beq_iff_eq]
  omega

/-- The Sunday-day list has no duplicates. -/
theorem sundayDays_nodup (y m : Nat) : (sundayDays y m).Nodup :=
  (List.nodup_range' _ _).filter _

/-- Decimal digit characters are distinct. -/
theorem digitChar_inj : ∀ a < 10, ∀ b < 10, Nat.digitChar a = Nat.digitChar b → a = b := by
  decide

/-- Within a fixed year and month, the ISO rendering determines the day
(days are below 100). -/
theorem toISO_inj_day {y m d₁ d₂ : Nat} (h₁ : d₁ < 100) (h₂ : d₂ < 100)
    (h : toISO y m d₁ = toISO y m d₂) : d₁ = d₂ := by
  unfold toISO at h
  have h' : ymChars y m ++ twoDigitChars d₁ = ymChars y m ++ twoDigitChars d₂ :=
    congrArg String.data h
  have h'' := List.append_cancel_left h'
  unfold twoDigitChars at h''
  simp only [List.cons.injEq, and_true] at h''
  obtain ⟨e1, e2⟩ := h''
  have g1 := digitChar_inj _ (Nat.mod_lt _ (by omega)) _ (Nat.mod_lt _ (by omega)) e1
  have g2 := digitChar_inj _ (Nat.mod_lt _ (by omega)) _ (Nat.mod_lt _ (by omega)) e2
  omega

/-! ## Summary-assembly lemmas -/

/-- For an existing user the monthly-summary handler succeeds with the
assembled summary. -/
theorem getMonth_ok (db : DB) (uid y m : Nat) (hu : uid ∈ db.users) :
    getGymAttendanceForMonth db uid y m = .ok (computeSummary db uid y m) := by
  unfold getGymAttendanceForMonth
  simp [hu]

/-- The fields of the assembled summary, written in terms of the day
count, the Sunday-day list and the fetched month records. -/
theorem computeSummary_fields (db : DB) (uid y m : Nat) :
    (computeSummary db uid y m).year = y ∧
    (computeSummary db uid y m).month = m ∧
    (computeSummary db uid y m).total_days = daysInMonth y m ∧
    (computeSummary db uid y m).attended_days = (monthRecords db uid y m).length ∧
    (computeSummary db uid y m).missed_days =
      max 0 ((daysInMonth y m : ℤ) - (sundayDays y m).length -
        (monthRecords db uid y m).length) ∧
    (computeSummary db uid y m).attendance_percentage =
      (if 0 < (daysInMonth y m : ℤ) - (sundayDays y m).length
       then (roundPct (monthRecords db uid y m).length
         ((daysInMonth y m : ℤ) - (sundayDays y m).length).toNat : ℤ)
       else 0) ∧
    (computeSummary db uid y m).attendance_dates =
      sortStrings ((monthRecords db uid y m).map (fun r => r.attendance_date.iso)) ∧
    (computeSummary db uid y m).sundays = sortStrings (sundayStrs y m) := by
  unfold computeSummary
  refine ⟨rfl, rfl, rfl, ?_, ?_, ?_, rfl, rfl⟩ <;>
    simp [sundayStrs, List.length_map]

/-- The sorted Sunday-string list has as many entries as the Sunday-day
list. -/
theorem computeSummary_sundays_length (db : DB) (uid y m : Nat) :
    (computeSummary db uid y m).sundays.length = (sundayDays y m).length := by
  rw [(computeSummary_fields db uid y m).2.2.2.2.2.2.2,
    (sortStrings_perm _).length_eq, sundayStrs, List.length_map]

/-- The handler's leap-year test agrees with the spec's Gregorian rule. -/
theorem isLeap_eq_gregorian (y : Nat) : isLeap y = isLeapGregorian y := by
  unfold isLeap isLeapGregorian
  by_cases h4 : y % 4 = 0 <;> by_cases h100 : y % 100 = 0 <;>
    by_cases h400 : y % 400 = 0 <;> simp [h4, h100, h400]

/-- The handler's month length agrees with the spec's Gregorian month
length, for every month number. -/
theorem daysInMonth_eq_gregorian (y m : Nat) :
    daysInMonth y m = daysInMonthGregorian y m := by
  unfold daysInMonth daysInMonthGregorian
  rcases m with _ | _ | _ | _ | _ | _ | _ | _ | _ | _ | _ | _ | m <;>
    first
      | rfl
      | simp [isLeap_eq_gregorian]

/-! ## Claim theorems -/

/-- C1: for every valid store and month request by an existing user, the
`attendance_percentage` field of the returned summary is the round-half-up
of `100 * attended_days / working_days` when `working_days > 0` (where
`working_days = total_days - |sundays|`) and `0` when `working_days = 0`;
it is never negative, and it is at most 100 whenever
`attended_days ≤ working_days`. -/
theorem percentage_round_half_up (db : DB) (uid y m : Nat) (hu : uid ∈ db.users) :
    ∃ s, getGymAttendanceForMonth db uid y m = .ok s ∧
      s.attendance_percentage =
        (if 0 < (s.total_days : ℤ) - s.sundays.length
         then jsRound ((100 * s.attended_days : ℚ) /
           (((s.total_days : ℤ) - s.sundays.length : ℤ) : ℚ))
         else 0) ∧
      0 ≤ s.attendance_percentage ∧
      ((s.attended_days : ℤ) ≤ (s.total_days : ℤ) - s.sundays.length →
        s.attendance_percentage ≤ 100) := by
  obtain ⟨-, -, ht, ha, -, hp, -, -⟩ := computeSummary_fields db uid y m
  have hlen := computeSummary_sundays_length db uid y m
  refine ⟨computeSummary db uid y m, getMonth_ok db uid y m hu, ?_, ?_, ?_⟩
  · rw [hp, ht, ha, hlen]
    by_cases hpos : 0 < (daysInMonth y m : ℤ) - ((sundayDays y m).length : ℤ)
    · rw [if_pos hpos, if_pos hpos]
      have h1 : 0 < ((daysInMonth y m : ℤ) - ((sundayDays y m).length : ℤ)).toNat := by
        omega
      rw [roundPct_eq_jsRound _ _ h1]
      have h2 : ((((daysInMonth y m : ℤ) - ((sundayDays y m).length : ℤ)).toNat : ℕ) : ℚ) =
          (((daysInMonth y m : ℤ) - ((sundayDays y m).length : ℤ) : ℤ) : ℚ) := by
        rw [← Int.cast_natCast, Int.toNat_of_nonneg hpos.le]
      rw [h2]
    · rw [if_neg hpos, if_neg hpos]
  · rw [hp]
    split
    · exact Int.natCast_nonneg _
    · exact le_refl 0
  · intro hle
    rw [ht, ha, hlen] at hle
    rw [hp]
    split
    · next hpos =>
        have hA : (monthRecords db uid y m).length ≤
            ((daysInMonth y m : ℤ) - ((sundayDays y m).length : ℤ)).toNat := by omega
        have := roundPct_le_100 _ _ (by omega) hA
        exact_mod_cast this
    · norm_num

/-- C1 witness: the spec's January-2024 scenario (8 attendance records;
27 working days; percentage 30). -/
theorem percentage_round_half_up_witness :
    7 ∈ janDB.users ∧
    (∃ s, getGymAttendanceForMonth janDB 7 2024 1 = .ok s ∧
      s.attendance_percentage =
        (if 0 < (s.total_days : ℤ) - s.sundays.length
         then jsRound ((100 * s.attended_days : ℚ) /
           (((s.total_days : ℤ) - s.sundays.length : ℤ) : ℚ))
         else 0) ∧
      0 ≤ s.attendance_percentage ∧
      ((s.attended_days : ℤ) ≤ (s.total_days : ℤ) - s.sundays.length →
        s.attendance_percentage ≤ 100)) ∧
    (computeSummary janDB 7 2024 1).attended_days = 8 ∧
    (computeSummary janDB 7 2024 1).attendance_percentage = 30 :=
  ⟨by decide, percentage_round_half_up janDB 7 2024 1 (by decide), by decide, by decide⟩

/-- C2: for every valid (year, month) requested by an existing user, the
`sundays` field is the ascending, duplicate-free list of exactly the ISO
renderings of the month's Sunday dates, and it has 4 or 5 entries. -/
theorem sundays_ascending_exact (db : DB) (uid y m : Nat) (hu : uid ∈ db.users)
    (hm1 : 1 ≤ m) (hm2 : m ≤ 12) :
    ∃ s, getGymAttendanceForMonth db uid y m = .ok s ∧
      (∀ str, str ∈ s.sundays ↔
        ∃ d, 1 ≤ d ∧ d ≤ daysInMonth y m ∧ jsGetDay y m d = 0 ∧ str = toISO y m d) ∧
      List.Sorted (fun a b => strLe a b = true) s.sundays ∧
      s.sundays.Nodup ∧
      4 ≤ s.sundays.length ∧ s.sundays.length ≤ 5 := by
  have hs := (computeSummary_fields db uid y m).2.2.2.2.2.2.2
  have hlen := computeSummary_sundays_length db uid y m
  refine ⟨computeSummary db uid y m, getMonth_ok db uid y m hu, ?_, ?_, ?_, ?_, ?_⟩
  · intro str
    rw [hs, (sortStrings_perm _).mem_iff]
    unfold sundayStrs
    rw [List.mem_map]
    constructor
    · rintro ⟨d, hd, rfl⟩
      obtain ⟨g1, g2, g3⟩ := mem_sundayDays.mp hd
      exact ⟨d, g1, g2, g3, rfl⟩
    · rintro ⟨d, g1, g2, g3, rfl⟩
      exact ⟨d, mem_sundayDays.mpr ⟨g1, g2, g3⟩, rfl⟩
  · rw [hs]
    exact sortStrings_sorted _
  · rw [hs, (sortStrings_perm _).nodup_iff]
    unfold sundayStrs
    refine List.Nodup.map_on ?_ (sundayDays_nodup y m)
    intro d₁ h₁ d₂ h₂ heq
    have b₁ := (mem_sundayDays.mp h₁).2.1
    have b₂ := (mem_sundayDays.mp h₂).2.1
    have hn := (daysInMonth_bounds y m).2
    exact toISO_inj_day (by omega) (by omega) heq
  · rw [hlen]
    exact (sundayDays_length y m).1
  · rw [hlen]
    exact (sundayDays_length y m).2

/-- C2 witness: January 2024 has exactly the four Sundays 7, 14, 21, 28. -/
theorem sundays_ascending_exact_witness :
    (7 ∈ janDB.users ∧ 1 ≤ 1 ∧ 1 ≤ 12) ∧
    (∃ s, getGymAttendanceForMonth janDB 7 2024 1 = .ok s ∧
      (∀ str, str ∈ s.sundays ↔
        ∃ d, 1 ≤ d ∧ d ≤ daysInMonth 2024 1 ∧ jsGetDay 2024 1 d = 0 ∧
          str = toISO 2024 1 d) ∧
      List.Sorted (fun a b => strLe a b = true) s.sundays ∧
      s.sundays.Nodup ∧
      4 ≤ s.sundays.length ∧ s.sundays.length ≤ 5) ∧
    (computeSummary janDB 7 2024 1).sundays =
      ["2024-01-07", "2024-01-14", "2024-01-21", "2024-01-28"] :=
  ⟨⟨by decide, by decide, by decide⟩,
   sundays_ascending_exact janDB 7 2024 1 (by decide) (by decide) (by decide),
   by decide⟩

/-- C3: the `missed_days` field always equals
`max 0 (total_days - |sundays| - attended_days)` and is never negative,
whatever the stored records (duplicates included). -/
theorem missed_days_clamped (db : DB) (uid y m : Nat) (hu : uid ∈ db.users) :
    ∃ s, getGymAttendanceForMonth db uid y m = .ok s ∧
      s.missed_days =
        max 0 ((s.total_days : ℤ) - s.sundays.length - s.attended_days) ∧
      0 ≤ s.missed_days := by
  obtain ⟨-, -, ht, ha, hm, -, -, -⟩ := computeSummary_fields db uid y m
  have hlen := computeSummary_sundays_length db uid y m
  refine ⟨computeSummary db uid y m, getMonth_ok db uid y m hu, ?_, ?_⟩
  · rw [hm, ht, ha, hlen]
  · rw [hm]
    exact le_max_left 0 _

/-- C3 witness: January 2024 with 8 attended days has 19 missed days. -/
theorem missed_days_clamped_witness :
    7 ∈ janDB.users ∧
    (∃ s, getGymAttendanceForMonth janDB 7 2024 1 = .ok s ∧
      s.missed_days =
        max 0 ((s.total_days : ℤ) - s.sundays.length - s.attended_days) ∧
      0 ≤ s.missed_days) ∧
    (computeSummary janDB 7 2024 1).missed_days = 19 :=
  ⟨by decide, missed_days_clamped janDB 7 2024 1 (by decide), by decide⟩

/-- C4: the `total_days` field equals the standard Gregorian month length,
leap years included. -/
theorem total_days_gregorian (db : DB) (uid y m : Nat) (hu : uid ∈ db.users) :
    ∃ s, getGymAttendanceForMonth db uid y m = .ok s ∧
      s.total_days = daysInMonthGregorian y m := by
  refine ⟨computeSummary db uid y m, getMonth_ok db uid y m hu, ?_⟩
  rw [(computeSummary_fields db uid y m).2.2.1]
  exact daysInMonth_eq_gregorian y m

/-- C4 witness: February 2024 (leap) has 29 days; the Gregorian rule gives
29/28/29/28 for 2024/2023/2000/1900. -/
theorem total_days_gregorian_witness :
    7 ∈ janDB.users ∧
    (∃ s, getGymAttendanceForMonth janDB 7 2024 2 = .ok s ∧
      s.total_days = daysInMonthGregorian 2024 2) ∧
    daysInMonthGregorian 2024 2 = 29 ∧ daysInMonthGregorian 2023 2 = 28 ∧
    daysInMonthGregorian 2000 2 = 29 ∧ daysInMonthGregorian 1900 2 = 28 :=
  ⟨by decide, total_days_gregorian janDB 7 2024 2 (by decide),
   by decide, by decide, by decide, by decide⟩

/-! ## Bulk-insert lemmas -/

/-- Shape of a bulk insert: the user set is unchanged, the new rows are
appended to the store in input order, every new row belongs to the
requesting user, and the new rows carry exactly the input dates. -/
theorem insertMany_spec (uid : Nat) : ∀ (ds : List Dte) (db : DB),
    (insertMany uid ds db).2.users = db.users ∧
    (insertMany uid ds db).2.records = db.records ++ (insertMany uid ds db).1 ∧
    ((insertMany uid ds db).1.map (fun r => r.user_id) = ds.map (fun _ => uid)) ∧
    ((insertMany uid ds db).1.map (fun r => r.attendance_date) = ds)
  | [], db => by simp [insertMany]
  | d :: rest, db => by
    have ih := insertMany_spec uid rest
      ⟨db.users, db.records ++ [⟨db.nextId, uid, d⟩], db.nextId + 1⟩
    rcases he : insertMany uid rest
      ⟨db.users, db.records ++ [⟨db.nextId, uid, d⟩], db.nextId + 1⟩ with ⟨rs, db'⟩
    rw [he] at ih
    obtain ⟨h1, h2, h3, h4⟩ := ih
    simp only [insertMany, he]
    refine ⟨h1, ?_, ?_, ?_⟩
    · simpa [List.append_assoc] using h2
    · simpa using h3
    · simpa using h4

/-- When every date in the batch parses and satisfies `P`, the zod batch
validation succeeds with the parsed dates, one per input. -/
theorem parseAll_ok_prop (P : Dte → Prop) : ∀ (dates : List DateStrIn),
    (∀ s ∈ dates, ∃ d, parseDate s = some d ∧ P d) →
    ∃ ds, parseAll dates = .ok ds ∧ ds.length = dates.length ∧ ∀ d ∈ ds, P d
  | [], _ => ⟨[], rfl, rfl, by simp⟩
  | s :: rest, h => by
    obtain ⟨d, hd, hPd⟩ := h s (by simp)
    obtain ⟨ds, hds, hlen, hP⟩ :=
      parseAll_ok_prop P rest (fun t ht => h t (by simp [ht]))
    refine ⟨d :: ds, ?_, by simp [hlen], ?_⟩
    · simp only [parseAll, hd, hds]
    · intro x hx
      rcases List.mem_cons.mp hx with rfl | hx
      · exact hPd
      · exact hP x hx

/-- When some date in the batch fails to parse, the zod batch validation
fails, reporting an unparseable date. -/
theorem parseAll_error_of_bad : ∀ (dates : List DateStrIn),
    (∃ s ∈ dates, parseDate s = none) →
    ∃ s, parseAll dates = .error s ∧ parseDate s = none
  | [], h => by simp at h
  | s :: rest, h => by
    cases hs : parseDate s with
    | none => exact ⟨s, by simp [parseAll, hs], hs⟩
    | some d =>
      have hrest : ∃ t ∈ rest, parseDate t = none := by
        rcases h with ⟨t, ht, hnone⟩
        rcases List.mem_cons.mp ht with rfl | htr
        · rw [hs] at hnone; cases hnone
        · exact ⟨t, htr, hnone⟩
      obtain ⟨e, he, hen⟩ := parseAll_error_of_bad rest hrest
      exact ⟨e, by simp [parseAll, hs, he], hen⟩

/-- C5 (round-trip): for an existing user with no prior records, bulk
recording a nonempty batch of N parseable dates that all fall inside
month (y, m) - boundary days and duplicates included - and then asking
for that month's summary yields `attended_days = N`.  (An empty batch
never succeeds: the insert builder throws on an empty values array, so
the round-trip is stated for the batches on which the call succeeds.) -/
theorem bulk_roundtrip_attended_days (db : DB) (uid y m : Nat)
    (dates : List DateStrIn) (hne : dates ≠ []) (hu : uid ∈ db.users)
    (hempty : ∀ r ∈ db.records, r.user_id ≠ uid)
    (hdates : ∀ s ∈ dates, ∃ k, parseDate s = some ⟨y, m, k⟩ ∧
      1 ≤ k ∧ k ≤ daysInMonth y m) :
    ∃ rs db', createBulkGymAttendance db uid dates = (.ok rs, db') ∧
      ∃ s, getGymAttendanceForMonth db' uid y m = .ok s ∧
        s.attended_days = dates.length := by
  obtain ⟨ds, hds, hlen, hP⟩ := parseAll_ok_prop
    (fun d => d.y = y ∧ d.m = m ∧ 1 ≤ d.d ∧ d.d ≤ daysInMonth y m) dates (by
      intro s hs
      obtain ⟨k, hk, h1, h2⟩ := hdates s hs
      exact ⟨⟨y, m, k⟩, hk, rfl, rfl, h1, h2⟩)
  have spec := insertMany_spec uid ds db
  rcases he : insertMany uid ds db with ⟨rs, db'⟩
  rw [he] at spec
  obtain ⟨g1, g2, g3, g4⟩ := spec
  have hu' : uid ∈ db'.users := by
    have : db'.users = db.users := g1
    rw [this]; exact hu
  have hdsne : ds.isEmpty = false := by
    cases ds with
    | nil =>
      have h0 : dates.length = 0 := by rw [← hlen]; rfl
      exact absurd (List.length_eq_zero.mp h0) hne
    | cons a as => rfl
  refine ⟨rs, db', by simp [createBulkGymAttendance, hds, hu, hdsne, he], ?_⟩
  refine ⟨computeSummary db' uid y m, getMonth_ok db' uid y m hu', ?_⟩
  rw [(computeSummary_fields db' uid y m).2.2.2.1]
  have hrecs : db'.records = db.records ++ rs := g2
  unfold monthRecords
  rw [hrecs, List.filter_append]
  have hold : db.records.filter
      (fun r => decide (r.user_id = uid ∧
        (Dte.key ⟨y, m, 1⟩) ≤ r.attendance_date.key ∧
        r.attendance_date.key ≤ Dte.key ⟨y, m, daysInMonth y m⟩)) = [] := by
    refine List.filter_eq_nil.mpr ?_
    intro r hr
    simp only [decide_eq_true_eq, not_and]
    intro habs
    exact absurd habs (hempty r hr)
  have hnew : rs.filter
      (fun r => decide (r.user_id = uid ∧
        (Dte.key ⟨y, m, 1⟩) ≤ r.attendance_date.key ∧
        r.attendance_date.key ≤ Dte.key ⟨y, m, daysInMonth y m⟩)) = rs := by
    refine List.filter_eq_self.mpr ?_
    intro r hr
    have huid : r.user_id = uid := by
      have hmem : r.user_id ∈ rs.map (fun r => r.user_id) := List.mem_map_of_mem _ hr
      rw [g3] at hmem
      obtain ⟨a, -, hax⟩ := List.mem_map.mp hmem
      exact hax.symm
    have hdate : r.attendance_date ∈ ds := by
      have hmem : r.attendance_date ∈ rs.map (fun r => r.attendance_date) :=
        List.mem_map_of_mem _ hr
      rwa [g4] at hmem
    obtain ⟨hy, hm', hd1, hd2⟩ := hP _ hdate
    simp only [decide_eq_true_eq]
    refine ⟨huid, ?_, ?_⟩ <;> (unfold Dte.key; simp only [hy, hm']; omega)
  rw [hold, hnew]
  have : rs.length = ds.length := by
    have := congrArg List.length g4
    simpa using this
  simp [this, hlen]

/-- C5 witness: recording four January-2024 dates (both month boundaries
and a duplicated date) for a fresh user and summarising January 2024
counts all four. -/
theorem bulk_roundtrip_attended_days_witness :
    7 ∈ (⟨[7], [], 0⟩ : DB).users ∧
    (∃ rs db', createBulkGymAttendance ⟨[7], [], 0⟩ 7
        [.valid ⟨2024, 1, 1⟩, .valid ⟨2024, 1, 31⟩,
         .valid ⟨2024, 1, 15⟩, .valid ⟨2024, 1, 15⟩] = (.ok rs, db') ∧
      ∃ s, getGymAttendanceForMonth db' 7 2024 1 = .ok s ∧
        s.attended_days =
          ([.valid ⟨2024, 1, 1⟩, .valid ⟨2024, 1, 31⟩,
            .valid ⟨2024, 1, 15⟩, .valid ⟨2024, 1, 15⟩] : List DateStrIn).length) :=
  ⟨by decide,
   bulk_roundtrip_attended_days ⟨[7], [], 0⟩ 7 2024 1
    [.valid ⟨2024, 1, 1⟩, .valid ⟨2024, 1, 31⟩,
     .valid ⟨2024, 1, 15⟩, .valid ⟨2024, 1, 15⟩]
    (by decide) (by decide) (by simp) (by
      intro s hs
      rcases List.mem_cons.mp hs with rfl | hs
      · exact ⟨1, rfl, by omega, by decide⟩
      rcases List.mem_cons.mp hs with rfl | hs
      · exact ⟨31, rfl, by omega, by decide⟩
      rcases List.mem_cons.mp hs with rfl | hs
      · exact ⟨15, rfl, by omega, by decide⟩
      rcases List.mem_cons.mp hs with rfl | hs
      · exact ⟨15, rfl, by omega, by decide⟩
      · cases hs)⟩

/-- C6: a batch containing an unparseable date is rejected as invalid
input by the validation stage, before any insert: the handler result is
the validation error and the store is returned unchanged. -/
theorem bulk_invalid_date_atomic (db : DB) (uid : Nat) (dates : List DateStrIn)
    (h : ∃ s ∈ dates, parseDate s = none) :
    ∃ s, parseDate s = none ∧
      createBulkGymAttendance db uid dates = (.error (.invalidInput s), db) := by
  obtain ⟨e, he, hen⟩ := parseAll_error_of_bad dates h
  exact ⟨e, hen, by simp [createBulkGymAttendance, he]⟩

/-- C6 witness: a batch with one good date and one garbage string fails
with invalid input and leaves the store untouched. -/
theorem bulk_invalid_date_atomic_witness :
    (∃ s ∈ ([.valid ⟨2024, 1, 2⟩, .invalid "not-a-date"] : List DateStrIn),
      parseDate s = none) ∧
    (∃ s, parseDate s = none ∧
      createBulkGymAttendance janDB 7 [.valid ⟨2024, 1, 2⟩, .invalid "not-a-date"] =
        (.error (.invalidInput s), janDB)) :=
  ⟨⟨.invalid "not-a-date", by decide, rfl⟩,
   bulk_invalid_date_atomic janDB 7 [.valid ⟨2024, 1, 2⟩, .invalid "not-a-date"]
    ⟨.invalid "not-a-date", by decide, rfl⟩⟩

/-- C7: for a user id with no matching user, every one of the four
operations fails with the user-not-found error before touching
attendance data, and the store is returned unchanged. -/
theorem notfound_user_all_ops (db : DB) (uid : Nat) (hu : uid ∉ db.users) :
    (∀ s d, parseDate s = some d →
      createGymAttendance db uid s = (.error (.notFoundUser uid), db)) ∧
    (∀ dates ds, parseAll dates = .ok ds →
      createBulkGymAttendance db uid dates = (.error (.notFoundUser uid), db)) ∧
    (∀ y m, getGymAttendanceForMonth db uid y m = .error (.notFoundUser uid)) ∧
    getUserAttendanceHistory db uid = .error (.notFoundUser uid) := by
  refine ⟨?_, ?_, ?_, ?_⟩
  · intro s d hs
    simp [createGymAttendance, hs, hu]
  · intro dates ds hds
    simp [createBulkGymAttendance, hds, hu]
  · intro y m
    simp [getGymAttendanceForMonth, hu]
  · simp [getUserAttendanceHistory, hu]

/-- C7 witness: user id 99999 does not exist in the sample store; all
four operations reject it. -/
theorem notfound_user_all_ops_witness :
    99999 ∉ janDB.users ∧
    ((∀ s d, parseDate s = some d →
      createGymAttendance janDB 99999 s = (.error (.notFoundUser 99999), janDB)) ∧
    (∀ dates ds, parseAll dates = .ok ds →
      createBulkGymAttendance janDB 99999 dates =
        (.error (.notFoundUser 99999), janDB)) ∧
    (∀ y m, getGymAttendanceForMonth janDB 99999 y m =
      .error (.notFoundUser 99999)) ∧
    getUserAttendanceHistory janDB 99999 = .error (.notFoundUser 99999)) :=
  ⟨by decide, notfound_user_all_ops janDB 99999 (by decide)⟩

/-! ## Deletion lemmas -/

/-- C8: deletion is not idempotent.  When a record with the requested id
is present (ids being unique, as the serial primary key guarantees), the
first call succeeds and removes exactly that record; a second call with
the same id - like any call for an id that never existed - fails with the
record-not-found error and leaves the store unchanged. -/
theorem delete_not_idempotent (db : DB) (rid : Nat) :
    ((db.records.map (fun r => r.id)).Nodup →
      ∀ r ∈ db.records, r.id = rid →
      ∃ db₁, deleteGymAttendance db rid = (.ok ⟨true⟩, db₁) ∧
        db₁.records.length + 1 = db.records.length ∧
        (∀ x ∈ db.records, x ≠ r → x ∈ db₁.records) ∧
        r ∉ db₁.records ∧
        (∀ x ∈ db₁.records, x ∈ db.records) ∧
        deleteGymAttendance db₁ rid = (.error (.notFoundRecord rid), db₁)) ∧
    ((∀ r ∈ db.records, r.id ≠ rid) →
      deleteGymAttendance db rid = (.error (.notFoundRecord rid), db)) := by
  constructor
  · intro hnodup r hr hrid
    refine ⟨⟨db.users, db.records.filter (fun x => x.id != rid), db.nextId⟩,
      ?_, ?_, ?_, ?_, ?_, ?_⟩
    · have hmemfil : r ∈ db.records.filter (fun x => x.id == rid) :=
        List.mem_filter.mpr ⟨hr, by simp [hrid]⟩
      have hnonzero : ¬(db.records.filter (fun x => x.id == rid)).length = 0 := by
        intro h0
        rw [List.length_eq_zero] at h0
        rw [h0] at hmemfil
        cases hmemfil
      unfold deleteGymAttendance
      rw [if_neg hnonzero]
    · have hperm := List.filter_append_perm (fun x => x.id == rid) db.records
      have hlen := hperm.length_eq
      have hcount : (db.records.filter (fun x => x.id == rid)).length = 1 := by
        rw [← List.countP_eq_length_filter]
        have h1 : db.records.countP (fun x => x.id == rid) =
            (db.records.map (fun r => r.id)).count rid := by
          rw [List.count, List.countP_map]
          rfl
        rw [h1]
        exact List.count_eq_one_of_mem hnodup
          (List.mem_map.mpr ⟨r, hr, hrid⟩)
      have hbne : (fun x : AttRec => x.id != rid) = (fun x => !(x.id == rid)) := rfl
      simp only [List.length_append] at hlen
      simp only [hbne]
      omega
    · intro x hx hxne
      refine List.mem_filter.mpr ⟨hx, ?_⟩
      have hne : x.id ≠ rid := by
        intro hxid
        exact hxne (List.inj_on_of_nodup_map hnodup hx hr (by rw [hxid, hrid]))
      simp [hne]
    · intro habs
      have := (List.mem_filter.mp habs).2
      simp [hrid] at this
    · intro x hx
      exact List.mem_of_mem_filter hx
    · have hnil : (db.records.filter (fun x => x.id != rid)).filter
          (fun x => x.id == rid) = [] := by
        refine List.filter_eq_nil_iff.mpr ?_
        intro a ha
        have h2 := (List.mem_filter.mp ha).2
        simpa using h2
      have hc : ((⟨db.users, db.records.filter (fun x => x.id != rid),
          db.nextId⟩ : DB).records.filter (fun x => x.id == rid)).length = 0 := by
        show ((db.records.filter (fun x => x.id != rid)).filter
          (fun x => x.id == rid)).length = 0
        rw [hnil]
        rfl
      unfold deleteGymAttendance
      rw [if_pos hc]
  · intro h
    have hnil : db.records.filter (fun x => x.id == rid) = [] := by
      refine List.filter_eq_nil_iff.mpr ?_
      intro a ha
      simpa using h a ha
    have hc : (db.records.filter (fun x => x.id == rid)).length = 0 := by
      rw [hnil]; rfl
    unfold deleteGymAttendance
    rw [if_pos hc]

/-- C8 witness: a store holding one record (id 0): the first delete
succeeds and empties the store, the second fails with record-not-found. -/
theorem delete_not_idempotent_witness :
    ∃ db₁, deleteGymAttendance ⟨[7], [⟨0, 7, ⟨2024, 1, 5⟩⟩], 1⟩ 0 =
        (.ok ⟨true⟩, db₁) ∧
      db₁.records.length + 1 =
        (⟨[7], [⟨0, 7, ⟨2024, 1, 5⟩⟩], 1⟩ : DB).records.length ∧
      (∀ x ∈ (⟨[7], [⟨0, 7, ⟨2024, 1, 5⟩⟩], 1⟩ : DB).records,
        x ≠ ⟨0, 7, ⟨2024, 1, 5⟩⟩ → x ∈ db₁.records) ∧
      (⟨0, 7, ⟨2024, 1, 5⟩⟩ : AttRec) ∉ db₁.records ∧
      (∀ x ∈ db₁.records, x ∈ (⟨[7], [⟨0, 7, ⟨2024, 1, 5⟩⟩], 1⟩ : DB).records) ∧
      deleteGymAttendance db₁ 0 = (.error (.notFoundRecord 0), db₁) :=
  (delete_not_idempotent ⟨[7], [⟨0, 7, ⟨2024, 1, 5⟩⟩], 1⟩ 0).1 (by decide)
    ⟨0, 7, ⟨2024, 1, 5⟩⟩ (by decide) (by decide)

/-! ## History lemmas -/

/-- On dates a SQL `date` column can hold, the numeric key order is the
calendar lexicographic order. -/
theorem key_le_iff_lex (a b : Dte) (ha1 : a.m ≤ 12) (ha2 : a.d ≤ 31)
    (hb1 : b.m ≤ 12) (hb2 : b.d ≤ 31) : a.key ≤ b.key ↔ dteLexLe a b := by
  unfold Dte.key dteLexLe
  omega

/-- C9: for an existing user whose stored dates are well-formed calendar
dates, the history is exactly the user's records (as a permutation of the
user filter), ordered descending by attendance date; ties may come in any
order since the ordering proved is non-strict. -/
theorem history_desc_order (db : DB) (uid : Nat) (hu : uid ∈ db.users)
    (hwf : ∀ r ∈ db.records, r.attendance_date.m ≤ 12 ∧ r.attendance_date.d ≤ 31) :
    ∃ l, getUserAttendanceHistory db uid = .ok l ∧
      List.Perm l (db.records.filter (fun r => r.user_id == uid)) ∧
      List.Pairwise (fun a b => dteLexLe b.attendance_date a.attendance_date) l := by
  refine ⟨List.insertionSort
      (fun a b : AttRec => b.attendance_date.key ≤ a.attendance_date.key)
      (db.records.filter (fun r => r.user_id == uid)), ?_, ?_, ?_⟩
  · simp [getUserAttendanceHistory, hu]
  · exact List.perm_insertionSort _ _
  · have hsorted : List.Sorted
        (fun a b : AttRec => b.attendance_date.key ≤ a.attendance_date.key)
        (List.insertionSort
          (fun a b : AttRec => b.attendance_date.key ≤ a.attendance_date.key)
          (db.records.filter (fun r => r.user_id == uid))) := by
      haveI : IsTotal AttRec
          (fun a b => b.attendance_date.key ≤ a.attendance_date.key) :=
        ⟨fun a b => Nat.le_total _ _⟩
      haveI : IsTrans AttRec
          (fun a b => b.attendance_date.key ≤ a.attendance_date.key) :=
        ⟨fun _ _ _ h1 h2 => Nat.le_trans h2 h1⟩
      exact List.sorted_insertionSort _ _
    refine List.Pairwise.imp_of_mem ?_ hsorted
    intro a b hamem hbmem hk
    have ha' : a ∈ db.records :=
      List.mem_of_mem_filter ((List.mem_insertionSort _).mp hamem)
    have hb' : b ∈ db.records :=
      List.mem_of_mem_filter ((List.mem_insertionSort _).mp hbmem)
    exact (key_le_iff_lex b.attendance_date a.attendance_date
      (hwf b hb').1 (hwf b hb').2 (hwf a ha').1 (hwf a ha').2).mp hk

/-- C9 witness: the spec's scenario 6 - records on 2024-03-05, 02-11,
02-10, 01-17, 01-16, 01-15 stored in scrambled order come back descending,
2024-03-05 first and 2024-01-15 last. -/
theorem history_desc_order_witness :
    (7 ∈ (⟨[7],
      [⟨0, 7, ⟨2024, 1, 17⟩⟩, ⟨1, 7, ⟨2024, 3, 5⟩⟩, ⟨2, 7, ⟨2024, 1, 15⟩⟩,
       ⟨3, 7, ⟨2024, 2, 10⟩⟩, ⟨4, 7, ⟨2024, 2, 11⟩⟩, ⟨5, 7, ⟨2024, 1, 16⟩⟩],
      6⟩ : DB).users) ∧
    (∃ l, getUserAttendanceHistory ⟨[7],
      [⟨0, 7, ⟨2024, 1, 17⟩⟩, ⟨1, 7, ⟨2024, 3, 5⟩⟩, ⟨2, 7, ⟨2024, 1, 15⟩⟩,
       ⟨3, 7, ⟨2024, 2, 10⟩⟩, ⟨4, 7, ⟨2024, 2, 11⟩⟩, ⟨5, 7, ⟨2024, 1, 16⟩⟩],
      6⟩ 7 = .ok l ∧
      List.Perm l ((⟨[7],
        [⟨0, 7, ⟨2024, 1, 17⟩⟩, ⟨1, 7, ⟨2024, 3, 5⟩⟩, ⟨2, 7, ⟨2024, 1, 15⟩⟩,
         ⟨3, 7, ⟨2024, 2, 10⟩⟩, ⟨4, 7, ⟨2024, 2, 11⟩⟩, ⟨5, 7, ⟨2024, 1, 16⟩⟩],
        6⟩ : DB).records.filter (fun r => r.user_id == 7)) ∧
      List.Pairwise (fun a b => dteLexLe b.attendance_date a.attendance_date) l) ∧
    getUserAttendanceHistory ⟨[7],
      [⟨0, 7, ⟨2024, 1, 17⟩⟩, ⟨1, 7, ⟨2024, 3, 5⟩⟩, ⟨2, 7, ⟨2024, 1, 15⟩⟩,
       ⟨3, 7, ⟨2024, 2, 10⟩⟩, ⟨4, 7, ⟨2024, 2, 11⟩⟩, ⟨5, 7, ⟨2024, 1, 16⟩⟩],
      6⟩ 7 = .ok
      [⟨1, 7, ⟨2024, 3, 5⟩⟩, ⟨4, 7, ⟨2024, 2, 11⟩⟩, ⟨3, 7, ⟨2024, 2, 10⟩⟩,
       ⟨0, 7, ⟨2024, 1, 17⟩⟩, ⟨5, 7, ⟨2024, 1, 16⟩⟩, ⟨2, 7, ⟨2024, 1, 15⟩⟩] :=
  ⟨by decide,
   history_desc_order _ 7 (by decide) (by decide),
   by rfl⟩

/-- C10: the delete handler never returns a false success flag - whenever
it returns a value at all (rather than throwing), that value is
`{ success := true }`. -/
theorem delete_success_flag (db : DB) (rid : Nat) (res : DeleteResult)
    (db' : DB) (h : deleteGymAttendance db rid = (.ok res, db')) :
    res.success = true := by
  unfold deleteGymAttendance at h
  split at h
  · simp [Prod.ext_iff] at h
  · have h1 := congrArg Prod.fst h
    simp only [Except.ok.injEq] at h1
    rw [← h1]

/-- C10 witness: deleting the only record of a one-record store returns
success = true. -/
theorem delete_success_flag_witness :
    deleteGymAttendance ⟨[7], [⟨0, 7, ⟨2024, 1, 5⟩⟩], 1⟩ 0 =
      (.ok ⟨true⟩, ⟨[7], [], 1⟩) ∧
    (⟨true⟩ : DeleteResult).success = true :=
  ⟨by rfl,
   delete_success_flag ⟨[7], [⟨0, 7, ⟨2024, 1, 5⟩⟩], 1⟩ 0 ⟨true⟩ ⟨[7], [], 1⟩
    (by rfl)⟩
